import Mathlib

/-!
Verification of the Elbob Dashboard API authentication backend.

The development embeds, as executable Lean functions, the parts of the
source relevant to the token-custody design:

* `config/tokenStore.js` — the credential-bound token vault
  (`encryptToken` / `decryptToken`, both revisions of the in-memory
  store: `get` / `set` / `isExpiringSoon`).
* `config/userStore.js` — `lookupUser` (bootstrap admin list + sheet
  roster with a TTL cache).
* `routes/auth.js` — the `POST /api/auth/verify` and
  `POST /api/auth/refresh-google` handlers.

Bytes are modelled as natural numbers below 256 (`List Nat`); a token
string is represented by its UTF-8 byte sequence.  The external Node
`crypto` primitives (SHA-256, AES-256-GCM) are not part of the
repository; they are modelled by executable deterministic functions
that expose exactly the interface the source relies on: a fixed-width
digest, a nonce-keyed length-preserving stream transformation that is
its own inverse, and a 16-byte authentication tag whose verification
gates decryption (mismatch means failure, as GCM tag checking throws in
Node and the source maps every such fault to `null`).  The random
12-byte nonce produced by `randomBytes(IV_BYTES)` is passed to
`encryptToken` as an explicit argument.  Network effects (the Google
userinfo endpoint, the Sheets API) are passed to the handlers as
explicit oracle arguments, and the mutable server state (token map,
active admin email, roster cache) is threaded explicitly.
-/

namespace Elbob

/-! ### base64url (Node `Buffer.toString('base64url')` / `Buffer.from(_, 'base64url')`) -/

/-- The base64url alphabet: value `v < 64` to its character. -/
def b64Char (v : Nat) : Char :=
  if v < 26 then Char.ofNat (65 + v)
  else if v < 52 then Char.ofNat (97 + (v - 26))
  else if v < 62 then Char.ofNat (48 + (v - 52))
  else if v = 62 then '-' else '_'

/-- Inverse of the alphabet: character to its 6-bit value, `none` for a
character outside the base64url alphabet. -/
def b64Val (c : Char) : Option Nat :=
  if 65 ≤ c.toNat ∧ c.toNat ≤ 90 then some (c.toNat - 65)
  else if 97 ≤ c.toNat ∧ c.toNat ≤ 122 then some (c.toNat - 97 + 26)
  else if 48 ≤ c.toNat ∧ c.toNat ≤ 57 then some (c.toNat - 48 + 52)
  else if c = '-' then some 62
  else if c = '_' then some 63
  else none

/-- base64url encoding of a byte list, without padding (Node's
`base64url` encoding emits no `=`). -/
def b64urlEncode : List Nat → List Char
  | [] => []
  | [b1] => [b64Char (b1 / 4), b64Char (b1 % 4 * 16)]
  | [b1, b2] =>
      [b64Char (b1 / 4), b64Char (b1 % 4 * 16 + b2 / 16), b64Char (b2 % 16 * 4)]
  | b1 :: b2 :: b3 :: rest =>
      b64Char (b1 / 4) :: b64Char (b1 % 4 * 16 + b2 / 16) ::
      b64Char (b2 % 16 * 4 + b3 / 64) :: b64Char (b3 % 64) :: b64urlEncode rest

/-- Reassemble bytes from a list of 6-bit values, four at a time; a
trailing group of two or three values yields one or two bytes and a
lone trailing value yields nothing, as in Node's decoder. -/
def b64urlDecodeVals : List Nat → List Nat
  | [] => []
  | [_] => []
  | [v1, v2] => [v1 * 4 + v2 / 16]
  | [v1, v2, v3] => [v1 * 4 + v2 / 16, v2 % 16 * 16 + v3 / 4]
  | v1 :: v2 :: v3 :: v4 :: rest =>
      (v1 * 4 + v2 / 16) :: (v2 % 16 * 16 + v3 / 4) :: (v3 % 4 * 64 + v4) ::
      b64urlDecodeVals rest

/-- base64url decoding; characters outside the alphabet are skipped
(Node's decoder is lenient and never throws). -/
def b64urlDecode (s : List Char) : List Nat :=
  b64urlDecodeVals (s.filterMap b64Val)

theorem b64Val_b64Char : ∀ v, v < 64 → b64Val (b64Char v) = some v := by decide

theorem b64Char_isSome : ∀ v, v < 64 → (b64Val (b64Char v)).isSome = true := by
  intro v hv
  rw [b64Val_b64Char v hv]
  rfl

/-- Decoding inverts encoding on genuine byte lists. -/
theorem b64url_roundtrip :
    ∀ bs : List Nat, (∀ b ∈ bs, b < 256) → b64urlDecode (b64urlEncode bs) = bs := by
  intro bs
  induction bs using b64urlEncode.induct with
  | case1 =>
      intro _
      rfl
  | case2 b1 =>
      intro h
      have hb1 : b1 < 256 := h b1 (by simp)
      have h1 : b1 / 4 < 64 := by omega
      have h2 : b1 % 4 * 16 < 64 := by omega
      simp only [b64urlEncode, b64urlDecode, List.filterMap_cons,
        b64Val_b64Char _ h1, b64Val_b64Char _ h2, List.filterMap_nil]
      simp only [b64urlDecodeVals, List.cons.injEq, and_true]
      omega
  | case3 b1 b2 =>
      intro h
      have hb1 : b1 < 256 := h b1 (by simp)
      have hb2 : b2 < 256 := h b2 (by simp)
      have h1 : b1 / 4 < 64 := by omega
      have h2 : b1 % 4 * 16 + b2 / 16 < 64 := by omega
      have h3 : b2 % 16 * 4 < 64 := by omega
      simp only [b64urlEncode, b64urlDecode, List.filterMap_cons,
        b64Val_b64Char _ h1, b64Val_b64Char _ h2, b64Val_b64Char _ h3,
        List.filterMap_nil]
      simp only [b64urlDecodeVals, List.cons.injEq, and_true]
      constructor
      · omega
      · omega
  | case4 b1 b2 b3 rest ih =>
      intro h
      have hb1 : b1 < 256 := h b1 (by simp)
      have hb2 : b2 < 256 := h b2 (by simp)
      have hb3 : b3 < 256 := h b3 (by simp)
      have hrest : ∀ b ∈ rest, b < 256 := fun b hb => h b (by simp [hb])
      have h1 : b1 / 4 < 64 := by omega
      have h2 : b1 % 4 * 16 + b2 / 16 < 64 := by omega
      have h3 : b2 % 16 * 4 + b3 / 64 < 64 := by omega
      have h4 : b3 % 64 < 64 := by omega
      have ih' := ih hrest
      simp only [b64urlDecode] at ih'
      simp only [b64urlEncode, b64urlDecode, List.filterMap_cons,
        b64Val_b64Char _ h1, b64Val_b64Char _ h2, b64Val_b64Char _ h3,
        b64Val_b64Char _ h4]
      simp only [b64urlDecodeVals, ih', List.cons.injEq, and_true]
      refine ⟨by omega, by omega, by omega⟩

/-- Every character of an encoded blob is in the base64url alphabet
(the blob is URL-safe text). -/
theorem b64urlEncode_urlSafe :
    ∀ bs : List Nat, (∀ b ∈ bs, b < 256) →
      ∀ c ∈ b64urlEncode bs, (b64Val c).isSome = true := by
  intro bs
  induction bs using b64urlEncode.induct with
  | case1 =>
      intro _ c hc
      simp [b64urlEncode] at hc
  | case2 b1 =>
      intro h c hc
      have hb1 : b1 < 256 := h b1 (by simp)
      simp only [b64urlEncode, List.mem_cons, List.not_mem_nil, or_false] at hc
      rcases hc with rfl | rfl
      · exact b64Char_isSome _ (by omega)
      · exact b64Char_isSome _ (by omega)
  | case3 b1 b2 =>
      intro h c hc
      have hb1 : b1 < 256 := h b1 (by simp)
      have hb2 : b2 < 256 := h b2 (by simp)
      simp only [b64urlEncode, List.mem_cons, List.not_mem_nil, or_false] at hc
      rcases hc with rfl | rfl | rfl
      · exact b64Char_isSome _ (by omega)
      · exact b64Char_isSome _ (by omega)
      · exact b64Char_isSome _ (by omega)
  | case4 b1 b2 b3 rest ih =>
      intro h c hc
      have hb1 : b1 < 256 := h b1 (by simp)
      have hb2 : b2 < 256 := h b2 (by simp)
      have hb3 : b3 < 256 := h b3 (by simp)
      have hrest : ∀ b ∈ rest, b < 256 := fun b hb => h b (by simp [hb])
      simp only [b64urlEncode, List.mem_cons] at hc
      rcases hc with rfl | rfl | rfl | rfl | hmem
      · exact b64Char_isSome _ (by omega)
      · exact b64Char_isSome _ (by omega)
      · exact b64Char_isSome _ (by omega)
      · exact b64Char_isSome _ (by omega)
      · exact ih hrest c hmem

/-! ### Cipher model (external Node `crypto` primitives)

`createHash('sha256')`, `createCipheriv('aes-256-gcm', ...)` and
`createDecipheriv` are Node built-ins, external to the repository.  They
are modelled by executable deterministic functions exposing the
interface the source depends on: `sha256` maps any byte list to a
32-byte digest; encryption is a keystream xor (length-preserving,
self-inverse for a fixed key and nonce); the 16-byte authentication tag
is a deterministic function of key, nonce and ciphertext, and
decryption succeeds exactly when the presented tag matches. -/

/-- Seeded polynomial mixing of a byte list into a bounded value; the
common core of the digest, keystream and tag models. -/
def mixBytes (l : List Nat) : Nat :=
  l.foldl (fun acc b => (acc * 131 + b + 7) % 1000000007) 9973

/-- Model of SHA-256: a deterministic 32-byte digest of the input. -/
def sha256 (msg : List Nat) : List Nat :=
  (List.range 32).map fun i => (mixBytes msg + 97 * i) % 256

/-- UTF-8 bytes of the hard-coded fallback secret
`'fallback-secret-change-me'` in `getKey()`. -/
def fallbackSecret : List Nat := "fallback-secret-change-me".toList.map Char.toNat

/-- Embeds `getKey()` from `config/tokenStore.js`: SHA-256 of
`process.env.JWT_SECRET || 'fallback-secret-change-me'` (an unset or
empty env var is falsy in JS and selects the fallback). -/
def getKey (jwtSecret : Option (List Nat)) : List Nat :=
  sha256 (match jwtSecret with
          | some s => if s = [] then fallbackSecret else s
          | none => fallbackSecret)

/-- `IV_BYTES` from `config/tokenStore.js`: 96-bit GCM nonce. -/
def IV_BYTES : Nat := 12

/-- `TAG_BYTES` from `config/tokenStore.js`: GCM auth tag length. -/
def TAG_BYTES : Nat := 16

/-- Model keystream byte at position `i` for a given key and nonce. -/
def keystream (key iv : List Nat) (i : Nat) : Nat :=
  (mixBytes (key ++ iv) + 31 * i + 11) % 256

/-- Model of the AES-CTR-style stream transformation underlying GCM:
xor the data with the keystream starting at position `i`.  Applying it
twice with the same key, nonce and offset is the identity. -/
def xorStream (key iv : List Nat) : Nat → List Nat → List Nat
  | _, [] => []
  | i, b :: rest => (b ^^^ keystream key iv i) :: xorStream key iv (i + 1) rest

/-- Model of the 16-byte GCM authentication tag over key, nonce and
ciphertext. -/
def gcmTag (key iv ct : List Nat) : List Nat :=
  (List.range 16).map fun i => (mixBytes (key ++ iv ++ ct) + 53 * i + 29) % 256

/-- Embeds `encryptToken(plaintext)` from `config/tokenStore.js`: the
random nonce produced by `randomBytes(IV_BYTES)` is the explicit `iv`
argument; the result is `iv ++ tag ++ ciphertext` encoded as a
base64url string. -/
def encryptToken (jwtSecret : Option (List Nat)) (iv : List Nat)
    (plaintext : List Nat) : List Char :=
  let key := getKey jwtSecret
  let enc := xorStream key iv 0 plaintext
  let tag := gcmTag key iv enc
  b64urlEncode (iv ++ tag ++ enc)

/-- Embeds `decryptToken(blob)` from `config/tokenStore.js`: decode the
blob, split off the 12-byte nonce and 16-byte tag, and decrypt.  Every
failure the Node code can raise inside its `try` (bad tag length, tag
mismatch, malformed input) is mapped to `none`, exactly as the
`catch` returns `null`. -/
def decryptToken (jwtSecret : Option (List Nat)) (blob : List Char) :
    Option (List Nat) :=
  let buf := b64urlDecode blob
  let iv := buf.take IV_BYTES
  let tag := (buf.drop IV_BYTES).take TAG_BYTES
  let ciphertext := buf.drop (IV_BYTES + TAG_BYTES)
  let key := getKey jwtSecret
  if tag = gcmTag key iv ciphertext then some (xorStream key iv 0 ciphertext)
  else none

theorem xorStream_xorStream (key iv : List Nat) :
    ∀ (i : Nat) (pt : List Nat), xorStream key iv i (xorStream key iv i pt) = pt := by
  intro i pt
  induction pt generalizing i with
  | nil => rfl
  | cons b rest ih =>
      simp only [xorStream, List.cons.injEq]
      exact ⟨by rw [Nat.xor_assoc, Nat.xor_self, Nat.xor_zero], ih (i + 1)⟩

theorem keystream_lt (key iv : List Nat) (i : Nat) : keystream key iv i < 256 :=
  Nat.mod_lt _ (by norm_num)

theorem xorStream_lt (key iv : List Nat) :
    ∀ (i : Nat) (pt : List Nat), (∀ b ∈ pt, b < 256) →
      ∀ b ∈ xorStream key iv i pt, b < 256 := by
  intro i pt
  induction pt generalizing i with
  | nil => intro _ b hb; simp [xorStream] at hb
  | cons x rest ih =>
      intro h b hb
      simp only [xorStream, List.mem_cons] at hb
      rcases hb with rfl | hb
      · have hx : x < 256 := h x (by simp)
        have hk : keystream key iv i < 256 := keystream_lt key iv i
        have : x ^^^ keystream key iv i < 2 ^ 8 :=
          Nat.xor_lt_two_pow (by norm_num at hx ⊢; omega) (by norm_num at hk ⊢; omega)
        norm_num at this
        exact this
      · exact ih (i + 1) (fun y hy => h y (by simp [hy])) b hb

theorem gcmTag_lt (key iv ct : List Nat) : ∀ b ∈ gcmTag key iv ct, b < 256 := by
  intro b hb
  simp only [gcmTag, List.mem_map, List.mem_range] at hb
  obtain ⟨i, _, rfl⟩ := hb
  exact Nat.mod_lt _ (by norm_num)

theorem gcmTag_length (key iv ct : List Nat) : (gcmTag key iv ct).length = 16 := by
  simp [gcmTag]

theorem xorStream_length (key iv : List Nat) :
    ∀ (i : Nat) (pt : List Nat), (xorStream key iv i pt).length = pt.length := by
  intro i pt
  induction pt generalizing i with
  | nil => rfl
  | cons x rest ih => simp [xorStream, ih]

/-- Decoding an encrypted blob recovers the raw `nonce ++ tag ++
ciphertext` byte concatenation. -/
theorem b64urlDecode_encryptToken (jwtSecret : Option (List Nat))
    (iv pt : List Nat) (hiv : ∀ b ∈ iv, b < 256) (hpt : ∀ b ∈ pt, b < 256) :
    b64urlDecode (encryptToken jwtSecret iv pt) =
      iv ++ gcmTag (getKey jwtSecret) iv (xorStream (getKey jwtSecret) iv 0 pt) ++
        xorStream (getKey jwtSecret) iv 0 pt := by
  have hct := xorStream_lt (getKey jwtSecret) iv 0 pt hpt
  have htag := gcmTag_lt (getKey jwtSecret) iv
    (xorStream (getKey jwtSecret) iv 0 pt)
  apply b64url_roundtrip
  intro b hb
  simp only [List.mem_append] at hb
  rcases hb with (hb | hb) | hb
  · exact hiv b hb
  · exact htag b hb
  · exact hct b hb

/-- The fixed-offset split performed by `decryptToken` recovers the
three components of any `iv ++ tag ++ ct` buffer with the right
component lengths. -/
theorem split_parts (iv tag ct : List Nat) (hiv : iv.length = 12)
    (htag : tag.length = 16) :
    (iv ++ tag ++ ct).take 12 = iv ∧
      ((iv ++ tag ++ ct).drop 12).take 16 = tag ∧
      (iv ++ tag ++ ct).drop 28 = ct := by
  rw [List.append_assoc]
  refine ⟨List.take_left' hiv, ?_, ?_⟩
  · rw [List.drop_left' hiv, List.take_left' htag]
  · have h1 : (28 : Nat) = 12 + 16 := by norm_num
    rw [h1, ← List.drop_drop, List.drop_left' hiv, List.drop_left' htag]

/-! ### Claims about the vault -/

/-- C1: for every token (as its byte sequence) and every 12-byte nonce
drawn by `randomBytes`, decrypting the blob produced by `encryptToken`
under the same server secret returns exactly the original token. -/
theorem decryptToken_encryptToken (jwtSecret : Option (List Nat))
    (iv pt : List Nat) (hlen : iv.length = 12) (hiv : ∀ b ∈ iv, b < 256)
    (hpt : ∀ b ∈ pt, b < 256) :
    decryptToken jwtSecret (encryptToken jwtSecret iv pt) = some pt := by
  have hdec := b64urlDecode_encryptToken jwtSecret iv pt hiv hpt
  have hparts := split_parts iv
    (gcmTag (getKey jwtSecret) iv (xorStream (getKey jwtSecret) iv 0 pt))
    (xorStream (getKey jwtSecret) iv 0 pt) hlen (gcmTag_length _ _ _)
  simp only [decryptToken, hdec]
  have h28 : IV_BYTES + TAG_BYTES = 28 := rfl
  rw [h28, show IV_BYTES = 12 from rfl, show TAG_BYTES = 16 from rfl,
    hparts.1, hparts.2.1, hparts.2.2, if_pos rfl, xorStream_xorStream]

set_option maxRecDepth 4000 in
theorem decryptToken_encryptToken_witness :
    decryptToken none (encryptToken none (List.replicate 12 3) [104, 105]) =
      some [104, 105] :=
  decryptToken_encryptToken none (List.replicate 12 3) [104, 105]
    (by decide) (by decide) (by decide)

/-- C2: `decryptToken` is a total function into `Option`: on every
input it yields either a decrypted byte string or `none` (the embedding
of `null`; the source wraps every fault in `try`/`catch`), and any blob
too short to contain the 12-byte nonce and 16-byte tag is rejected with
`none`. -/
theorem decryptToken_total (jwtSecret : Option (List Nat)) (blob : List Char) :
    ((b64urlDecode blob).length < 28 → decryptToken jwtSecret blob = none) ∧
      (decryptToken jwtSecret blob = none ∨
        ∃ t, decryptToken jwtSecret blob = some t) := by
  constructor
  · intro h
    simp only [decryptToken]
    rw [if_neg]
    intro heq
    have hlen := congrArg List.length heq
    rw [gcmTag_length] at hlen
    simp only [List.length_take, List.length_drop] at hlen
    have h1216 : IV_BYTES = 12 ∧ TAG_BYTES = 16 := ⟨rfl, rfl⟩
    omega
  · cases h : decryptToken jwtSecret blob with
    | none => exact Or.inl rfl
    | some t => exact Or.inr ⟨t, rfl⟩

set_option maxRecDepth 10000 in
theorem decryptToken_total_witness :
    decryptToken none ("not-a-valid-blob".toList) = none :=
  (decryptToken_total none ("not-a-valid-blob".toList)).1 (by decide)

/-- C5: two `encryptToken` calls with the same plaintext but distinct
random nonces produce distinct blobs; the nonce occupies the
fixed-length leading segment of the decoded blob, so distinct nonces
force distinct outputs. -/
theorem encryptToken_nonce_distinct (jwtSecret : Option (List Nat))
    (iv1 iv2 pt : List Nat) (hl1 : iv1.length = 12) (hl2 : iv2.length = 12)
    (hb1 : ∀ b ∈ iv1, b < 256) (hb2 : ∀ b ∈ iv2, b < 256)
    (hpt : ∀ b ∈ pt, b < 256) (hne : iv1 ≠ iv2) :
    encryptToken jwtSecret iv1 pt ≠ encryptToken jwtSecret iv2 pt ∧
      (b64urlDecode (encryptToken jwtSecret iv1 pt)).take IV_BYTES = iv1 := by
  have hd1 := b64urlDecode_encryptToken jwtSecret iv1 pt hb1 hpt
  have hd2 := b64urlDecode_encryptToken jwtSecret iv2 pt hb2 hpt
  have hp1 := split_parts iv1
    (gcmTag (getKey jwtSecret) iv1 (xorStream (getKey jwtSecret) iv1 0 pt))
    (xorStream (getKey jwtSecret) iv1 0 pt) hl1 (gcmTag_length _ _ _)
  have hp2 := split_parts iv2
    (gcmTag (getKey jwtSecret) iv2 (xorStream (getKey jwtSecret) iv2 0 pt))
    (xorStream (getKey jwtSecret) iv2 0 pt) hl2 (gcmTag_length _ _ _)
  constructor
  · intro heq
    apply hne
    have hdec := congrArg b64urlDecode heq
    rw [hd1, hd2] at hdec
    have htake := congrArg (List.take 12) hdec
    rw [hp1.1, hp2.1] at htake
    exact htake
  · rw [show IV_BYTES = 12 from rfl, hd1, hp1.1]

theorem encryptToken_nonce_distinct_witness :
    encryptToken none (List.replicate 12 0) [104] ≠
        encryptToken none (List.replicate 12 1) [104] ∧
      (b64urlDecode (encryptToken none (List.replicate 12 0) [104])).take
          IV_BYTES = List.replicate 12 0 :=
  encryptToken_nonce_distinct none (List.replicate 12 0) (List.replicate 12 1)
    [104] (by decide) (by decide) (by decide) (by decide) (by decide) (by decide)

/-- C6: the blob produced by `encryptToken` is the base64url encoding
of the concatenation `nonce(12) ++ tag(16) ++ ciphertext`, every
character of it lies in the URL-safe alphabet, and the fixed-length
prefix split performed by `decryptToken` recovers the three parts. -/
theorem encryptToken_blob_structure (jwtSecret : Option (List Nat))
    (iv pt : List Nat) (hlen : iv.length = 12) (hiv : ∀ b ∈ iv, b < 256)
    (hpt : ∀ b ∈ pt, b < 256) :
    encryptToken jwtSecret iv pt =
        b64urlEncode (iv ++
          gcmTag (getKey jwtSecret) iv (xorStream (getKey jwtSecret) iv 0 pt) ++
          xorStream (getKey jwtSecret) iv 0 pt) ∧
      iv.length = IV_BYTES ∧
      (gcmTag (getKey jwtSecret) iv
        (xorStream (getKey jwtSecret) iv 0 pt)).length = TAG_BYTES ∧
      (∀ c ∈ encryptToken jwtSecret iv pt, (b64Val c).isSome = true) ∧
      (b64urlDecode (encryptToken jwtSecret iv pt)).take IV_BYTES = iv ∧
      ((b64urlDecode (encryptToken jwtSecret iv pt)).drop IV_BYTES).take
          TAG_BYTES =
        gcmTag (getKey jwtSecret) iv (xorStream (getKey jwtSecret) iv 0 pt) ∧
      (b64urlDecode (encryptToken jwtSecret iv pt)).drop (IV_BYTES + TAG_BYTES) =
        xorStream (getKey jwtSecret) iv 0 pt := by
  have hdec := b64urlDecode_encryptToken jwtSecret iv pt hiv hpt
  have hparts := split_parts iv
    (gcmTag (getKey jwtSecret) iv (xorStream (getKey jwtSecret) iv 0 pt))
    (xorStream (getKey jwtSecret) iv 0 pt) hlen (gcmTag_length _ _ _)
  have hct := xorStream_lt (getKey jwtSecret) iv 0 pt hpt
  have htag := gcmTag_lt (getKey jwtSecret) iv
    (xorStream (getKey jwtSecret) iv 0 pt)
  refine ⟨rfl, hlen, gcmTag_length _ _ _, ?_, ?_, ?_, ?_⟩
  · intro c hc
    apply b64urlEncode_urlSafe _ ?_ c hc
    intro b hb
    simp only [List.mem_append] at hb
    rcases hb with (hb | hb) | hb
    · exact hiv b hb
    · exact htag b hb
    · exact hct b hb
  · rw [show IV_BYTES = 12 from rfl, hdec, hparts.1]
  · rw [show IV_BYTES = 12 from rfl, show TAG_BYTES = 16 from rfl, hdec,
      hparts.2.1]
  · rw [show IV_BYTES + TAG_BYTES = 28 from rfl, hdec, hparts.2.2]

theorem encryptToken_blob_structure_witness :
    encryptToken none (List.replicate 12 7) [116, 107] =
        b64urlEncode (List.replicate 12 7 ++
          gcmTag (getKey none) (List.replicate 12 7)
            (xorStream (getKey none) (List.replicate 12 7) 0 [116, 107]) ++
          xorStream (getKey none) (List.replicate 12 7) 0 [116, 107]) ∧
      (List.replicate 12 7 : List Nat).length = IV_BYTES ∧
      (gcmTag (getKey none) (List.replicate 12 7)
        (xorStream (getKey none) (List.replicate 12 7) 0 [116, 107])).length =
        TAG_BYTES ∧
      (∀ c ∈ encryptToken none (List.replicate 12 7) [116, 107],
        (b64Val c).isSome = true) ∧
      (b64urlDecode (encryptToken none (List.replicate 12 7) [116, 107])).take
          IV_BYTES = List.replicate 12 7 ∧
      ((b64urlDecode
            (encryptToken none (List.replicate 12 7) [116, 107])).drop
            IV_BYTES).take TAG_BYTES =
        gcmTag (getKey none) (List.replicate 12 7)
          (xorStream (getKey none) (List.replicate 12 7) 0 [116, 107]) ∧
      (b64urlDecode (encryptToken none (List.replicate 12 7) [116, 107])).drop
          (IV_BYTES + TAG_BYTES) =
        xorStream (getKey none) (List.replicate 12 7) 0 [116, 107] :=
  encryptToken_blob_structure none (List.replicate 12 7) [116, 107]
    (by decide) (by decide) (by decide)

/-! ### In-memory token store (`config/tokenStore.js`)

Both revisions keep a `Map` from `userId` to
`{ googleToken, expiresAt }` (the original server-side store, and the
best-effort warm-instance cache `_mem` of the JWT-embedded revision)
with identical lookup, expiry and eviction logic.  The map is modelled
as an association list, `Date.now()` as an explicit `now : Int`
argument. -/

/-- A stored entry: `{ googleToken, expiresAt }`. -/
structure MemEntry where
  googleToken : String
  expiresAt : Int
deriving DecidableEq

/-- `GOOGLE_TOKEN_TTL_MS = 55 * 60 * 1000`. -/
def GOOGLE_TOKEN_TTL_MS : Int := 55 * 60 * 1000

/-- `store.get(userId)` on the underlying `Map`. -/
def memLookup (mem : List (String × MemEntry)) (userId : String) :
    Option MemEntry :=
  match mem.find? (fun p => p.1 == userId) with
  | some p => some p.2
  | none => none

/-- `store.delete(userId)` on the underlying `Map`. -/
def memErase (mem : List (String × MemEntry)) (userId : String) :
    List (String × MemEntry) :=
  mem.filter (fun p => !(p.1 == userId))

/-- Embeds `tokenStore.set(userId, googleToken)`: store the token with
`expiresAt = Date.now() + GOOGLE_TOKEN_TTL_MS`. -/
def tokenStoreSet (mem : List (String × MemEntry)) (now : Int)
    (userId googleToken : String) : List (String × MemEntry) :=
  (userId, ⟨googleToken, now + GOOGLE_TOKEN_TTL_MS⟩) :: memErase mem userId

/-- Embeds `tokenStore.get(userId)` (the stored-entry path shared by
both revisions: the original `get`, and the warm-instance fallback of
the JWT-embedded revision when no `req` carrying an encrypted blob is
supplied): return `null` when the entry is missing, and delete the
entry and return `null` when `Date.now() > entry.expiresAt`.  The
result pairs the returned value with the store after the call. -/
def tokenStoreGet (mem : List (String × MemEntry)) (now : Int)
    (userId : String) : Option String × List (String × MemEntry) :=
  match memLookup mem userId with
  | none => (none, mem)
  | some entry =>
      if now > entry.expiresAt then (none, memErase mem userId)
      else (some entry.googleToken, mem)

/-- Embeds `tokenStore.isExpiringSoon(userId, req)` of the JWT-embedded
revision restricted to the stored-entry path (`expClaim` is the
`req?.user?.googleTokenExpiresAt` value; `none` models an absent claim,
and a claim of `0` is falsy in JS and also falls through).  With
`expClaim = none` this is exactly the original revision's
`isExpiringSoon(userId)`. -/
def tokenStoreIsExpiringSoon (expClaim : Option Int)
    (mem : List (String × MemEntry)) (now : Int) (userId : String) : Bool :=
  match expClaim with
  | some e =>
      if e = 0 then
        match memLookup mem userId with
        | none => true
        | some entry => decide (entry.expiresAt - now < 5 * 60 * 1000)
      else decide (e - now < 5 * 60 * 1000)
  | none =>
      match memLookup mem userId with
      | none => true
      | some entry => decide (entry.expiresAt - now < 5 * 60 * 1000)

theorem memLookup_memErase (mem : List (String × MemEntry)) (userId : String) :
    memLookup (memErase mem userId) userId = none := by
  induction mem with
  | nil => rfl
  | cons p rest ih =>
      simp only [memErase, List.filter_cons]
      by_cases h : p.1 = userId
      · simp only [h, beq_self_eq_true, Bool.not_true, if_false]
        exact ih
      · have hne : (p.1 == userId) = false := beq_eq_false_iff_ne.mpr h
        simp only [hne, Bool.not_false, if_true, memLookup, List.find?_cons, hne]
        exact ih

/-- C9 (counterexample to the claim as stated): at the boundary instant
`now = expiresAt` the expiry check `Date.now() > entry.expiresAt` does
not fire, so `get` returns the token although the entry's expiry is not
in the future — it equals `now`. -/
theorem tokenStoreGet_boundary_counterexample :
    (tokenStoreGet [("u", ⟨"tok", 1000⟩)] 1000 "u").1 = some "tok" ∧
      memLookup [("u", ⟨"tok", 1000⟩)] "u" = some ⟨"tok", 1000⟩ ∧
      ¬((1000 : Int) < 1000) := by
  refine ⟨rfl, rfl, by omega⟩

/-- C9 (amended): a stored entry whose expiry is strictly in the past
is never returned — `get` yields `null` and deletes it — and any
non-null return comes from an entry whose expiry is not in the past
(`now ≤ expiresAt`; equality is possible, so "strictly in the future"
would be too strong). -/
theorem tokenStoreGet_never_expired (mem : List (String × MemEntry))
    (now : Int) (userId : String) :
    (∀ entry, memLookup mem userId = some entry → entry.expiresAt < now →
        (tokenStoreGet mem now userId).1 = none ∧
          memLookup (tokenStoreGet mem now userId).2 userId = none) ∧
      (∀ t, (tokenStoreGet mem now userId).1 = some t →
        ∃ entry, memLookup mem userId = some entry ∧ now ≤ entry.expiresAt ∧
          entry.googleToken = t) := by
  constructor
  · intro entry hfind hexp
    simp only [tokenStoreGet, hfind]
    rw [if_pos (by omega)]
    exact ⟨rfl, memLookup_memErase mem userId⟩
  · intro t ht
    cases hfind : memLookup mem userId with
    | none =>
        simp only [tokenStoreGet, hfind] at ht
        exact absurd ht (by simp)
    | some entry =>
        simp only [tokenStoreGet, hfind] at ht
        by_cases hexp : now > entry.expiresAt
        · rw [if_pos hexp] at ht
          exact absurd ht (by simp)
        · rw [if_neg hexp] at ht
          simp only [Option.some.injEq] at ht
          exact ⟨entry, rfl, by omega, ht⟩

theorem tokenStoreGet_never_expired_witness :
    (tokenStoreGet [("u", ⟨"tok", 5⟩)] 10 "u").1 = none ∧
      memLookup (tokenStoreGet [("u", ⟨"tok", 5⟩)] 10 "u").2 "u" = none :=
  (tokenStoreGet_never_expired [("u", ⟨"tok", 5⟩)] 10 "u").1
    ⟨"tok", 5⟩ rfl (by decide)

/-- C10: a user with no stored token entry (and, in the JWT-embedded
revision, no `googleTokenExpiresAt` claim on the request) is always
reported as expiring soon. -/
theorem tokenStoreIsExpiringSoon_missing (mem : List (String × MemEntry))
    (now : Int) (userId : String) (h : memLookup mem userId = none) :
    tokenStoreIsExpiringSoon none mem now userId = true := by
  simp [tokenStoreIsExpiringSoon, h]

theorem tokenStoreIsExpiringSoon_missing_witness :
    tokenStoreIsExpiringSoon none [] 0 "u" = true :=
  tokenStoreIsExpiringSoon_missing [] 0 "u" rfl

/-! ### JavaScript string helpers

`toLowerCase`, `trim` and `split(',')` from the source are translated
to executable functions over the character list of a `String`. -/

/-- JS `String.prototype.toLowerCase` (ASCII case mapping). -/
def jsToLower (l : List Char) : List Char := l.map Char.toLower

/-- JS `String.prototype.trim`: strip whitespace from both ends. -/
def jsTrim (l : List Char) : List Char :=
  ((l.dropWhile Char.isWhitespace).reverse.dropWhile Char.isWhitespace).reverse

/-- JS `String.prototype.split(',')`. -/
def splitComma : List Char → List (List Char)
  | [] => [[]]
  | c :: rest =>
      if c = ',' then [] :: splitComma rest
      else
        match splitComma rest with
        | h :: t => (c :: h) :: t
        | [] => [[c]]

/-- `(email).toLowerCase().trim()` — the normalization applied to the
email coming back from Google in `auth.js` and in `lookupUser`. -/
def normEmail (s : String) : String := String.mk (jsTrim (jsToLower s.data))

/-- `e.trim().toLowerCase()` — the normalization applied to each entry
of the `ADMIN_EMAILS` env var. -/
def normAdmin (s : String) : String := String.mk (jsToLower (jsTrim s.data))

/-- Embeds the `BOOTSTRAP_ADMINS` / `ADMIN_EMAILS` parsing:
`(env).split(',').map(e => e.trim().toLowerCase()).filter(Boolean)`
(`filter(Boolean)` drops the empty string, which is falsy). -/
def parseAdminEmails (env : String) : List String :=
  ((splitComma env.data).map (fun l => String.mk (jsToLower (jsTrim l)))).filter
    (fun e => e ≠ "")

/-- JS `a || b` for a possibly-absent string `a`: an absent or empty
(falsy) value selects `b`. -/
def jsOrStr (a : Option String) (b : String) : String :=
  match a with
  | some s => if s = "" then b else s
  | none => b

/-- JS `a || null` for a possibly-absent string: an empty string is
falsy and becomes `null`. -/
def jsOrNull (a : Option String) : Option String :=
  match a with
  | some s => if s = "" then none else some s
  | none => none

/-! ### Roster-backed user store (`config/userStore.js`) -/

/-- A roster row relevant to `lookupUser`: normalized email and role
(`readAllRows` defaults a blank role cell to `'user'` and drops rows
with a blank email; `sheetRead` oracle results are already in this
parsed form). -/
structure RosterUser where
  email : String
  role : String
deriving DecidableEq

/-- The module-level roster cache of `userStore.js`: `cache` (a map
from email to row, modelled as the row list) and `cacheTime`. -/
structure RosterState where
  cache : Option (List RosterUser)
  cacheTime : Int
deriving DecidableEq

/-- `TTL_MS = 60_000` from `config/userStore.js`. -/
def USERS_TTL_MS : Int := 60000

/-- `cache?.get(e) || null` — lookup of a normalized email in the
roster rows. -/
def rosterFind (rows : List RosterUser) (e : String) : Option RosterUser :=
  rows.find? (fun u => u.email == e)

/-- The mutable server state the auth routes touch: the token map, the
module-level `adminEmail` pointer of `userStore.js`, and the roster
cache. -/
structure AuthState where
  mem : List (String × MemEntry)
  adminEmail : Option String
  roster : RosterState
deriving DecidableEq

/-- Embeds `lookupUser(email)` from `config/userStore.js`.  The Sheets
API is the `sheetRead` oracle: `.ok rows` is a successful
`ensureTab(); readAllRows()` pass returning the parsed rows, `.error`
is any thrown Sheets fault.  Bootstrap admins return immediately;
otherwise an available admin token is required (`tokenStore.get` may
evict an expired admin entry, which persists in the returned state), a
stale or missing cache triggers `refreshCache()`, and the email is
looked up in the current cache.  The first component is `.error ()`
when the source function throws. -/
def lookupUser (env : String) (sheetRead : Except Unit (List RosterUser))
    (now : Int) (st : AuthState) (email : String) :
    Except Unit (Option RosterUser) × AuthState :=
  let e := normEmail email
  if (parseAdminEmails env).contains e then (.ok (some ⟨e, "admin"⟩), st)
  else
    match st.adminEmail with
    | none => (.ok none, st)
    | some a =>
        match tokenStoreGet st.mem now a with
        | (none, mem₂) => (.ok none, { st with mem := mem₂ })
        | (some _, mem₂) =>
            let st₂ : AuthState := { st with mem := mem₂ }
            if st₂.roster.cache.isNone ||
                decide (now - st₂.roster.cacheTime > USERS_TTL_MS) then
              match sheetRead with
              | .error u => (.error u, st₂)
              | .ok rows =>
                  (.ok (rosterFind rows e),
                    { st₂ with roster := ⟨some rows, now⟩ })
            else (.ok (rosterFind (st₂.roster.cache.getD []) e), st₂)

/-! ### Auth routes (`routes/auth.js`, roster-bearing revision) -/

/-- The `googleAccessToken` field of the request body as a JSON value:
absent (or another falsy non-string), a string, or a truthy non-string
value. -/
inductive BodyVal where
  | missing
  | nonStringVal
  | str (s : String)
deriving DecidableEq

/-- Profile fields used from Google's userinfo response. -/
structure GoogleProfile where
  email : Option String
  name : Option String
  given_name : Option String
  picture : Option String
deriving DecidableEq

/-- Outcome of `fetch('https://www.googleapis.com/oauth2/v3/userinfo')`:
the fetch itself threw, a non-2xx response, or a profile. -/
inductive GRes where
  | fetchFault
  | notOk
  | ok (profile : GoogleProfile)
deriving DecidableEq

/-- The claim set signed into the session JWT. -/
structure JwtPayload where
  userId : String
  name : String
  email : String
  picture : Option String
  role : String
deriving DecidableEq

/-- Result of the `verify` handler: HTTP status, the signed credential's
claim set when one is issued, whether the Google identity endpoint was
called, and the server state after the request. -/
structure VerifyOutcome where
  status : Nat
  credential : Option JwtPayload
  calledGoogle : Bool
  state : AuthState
deriving DecidableEq

/-- Embeds `POST /api/auth/verify` (roster-bearing revision):
validate the body token, verify it with Google, normalize the email,
store the token, register bootstrap admins, `lookupUser` (a thrown
sheet fault degrades to bootstrap-only), reject unknown identities
with 403 after deleting the stored token, or issue the JWT claim set
with the server-derived role. -/
def verify (env : String) (sheetRead : Except Unit (List RosterUser))
    (now : Int) (st : AuthState) (body : BodyVal) (gRes : GRes) :
    VerifyOutcome :=
  match body with
  | .missing => ⟨400, none, false, st⟩
  | .nonStringVal => ⟨400, none, false, st⟩
  | .str t =>
      if t = "" then ⟨400, none, false, st⟩
      else
        match gRes with
        | .fetchFault => ⟨500, none, true, st⟩
        | .notOk => ⟨401, none, true, st⟩
        | .ok profile =>
            let email := normEmail (jsOrStr profile.email "")
            if email = "" then ⟨401, none, true, st⟩
            else
              let st₁ : AuthState :=
                { st with mem := tokenStoreSet st.mem now email t }
              let admins := parseAdminEmails env
              let st₂ : AuthState :=
                if admins.contains email then
                  { st₁ with adminEmail := some email }
                else st₁
              let lres := lookupUser env sheetRead now st₂ email
              let found : Option RosterUser :=
                match lres.1 with
                | .ok f => f
                | .error _ =>
                    if admins.contains email then some ⟨email, "admin"⟩
                    else none
              match found with
              | none =>
                  ⟨403, none, true,
                    { lres.2 with mem := memErase lres.2.mem email }⟩
              | some u =>
                  let st₄ : AuthState :=
                    if u.role = "admin" then
                      { lres.2 with adminEmail := some email }
                    else lres.2
                  ⟨200,
                    some ⟨email,
                      jsOrStr profile.name (jsOrStr profile.given_name email),
                      email, jsOrNull profile.picture, u.role⟩,
                    true, st₄⟩

/-- Result of the `refresh-google` handler: HTTP status and the server
state after the request. -/
structure RefreshOutcome where
  status : Nat
  state : AuthState
deriving DecidableEq

/-- Embeds `POST /api/auth/refresh-google`: the handler runs behind
`requireAuth`, so `userId` and `userRole` are the claims of the
presented session credential; `bodyToken` is the new Google token from
the body (`none` models an absent field; the handler only applies the
JS falsy test `!googleAccessToken`).  A new token resolving to an
identity other than the credential's subject is rejected with 403
before any state is touched. -/
def refreshGoogle (now : Int) (st : AuthState) (userId userRole : String)
    (bodyToken : Option String) (gRes : GRes) : RefreshOutcome :=
  match bodyToken with
  | none => ⟨400, st⟩
  | some t =>
      if t = "" then ⟨400, st⟩
      else
        match gRes with
        | .fetchFault => ⟨500, st⟩
        | .notOk => ⟨401, st⟩
        | .ok profile =>
            let email := normEmail (jsOrStr profile.email "")
            if email = userId then
              let st₁ : AuthState :=
                { st with mem := tokenStoreSet st.mem now email t }
              let st₂ : AuthState :=
                if userRole = "admin" then { st₁ with adminEmail := some email }
                else st₁
              ⟨200, st₂⟩
            else ⟨403, st⟩

/-! ### Normalization is idempotent

The route handler normalizes the Google-provided email and `lookupUser`
normalizes its argument again; the lemmas below let the two coincide. -/

theorem toNat_ofNat_of_lt {n : Nat} (h : n < 55296) : (Char.ofNat n).toNat = n := by
  rw [Char.ofNat, dif_pos (Or.inl h)]
  rfl

theorem toLower_toLower (c : Char) : c.toLower.toLower = c.toLower := by
  simp only [Char.toLower]
  by_cases h : c.toNat ≥ 65 ∧ c.toNat ≤ 90
  · rw [if_pos h, if_neg]
    rw [toNat_ofNat_of_lt (by omega)]
    omega
  · rw [if_neg h, if_neg h]

theorem not_ws_of_ge (d : Char) (h : 33 ≤ d.toNat) : d.isWhitespace = false := by
  have h1 : d ≠ ' ' := by intro hEq; subst hEq; revert h; decide
  have h2 : d ≠ '\t' := by intro hEq; subst hEq; revert h; decide
  have h3 : d ≠ '\r' := by intro hEq; subst hEq; revert h; decide
  have h4 : d ≠ '\n' := by intro hEq; subst hEq; revert h; decide
  simp [Char.isWhitespace, h1, h2, h3, h4]

theorem isWhitespace_toLower (c : Char) :
    c.toLower.isWhitespace = c.isWhitespace := by
  simp only [Char.toLower]
  by_cases h : c.toNat ≥ 65 ∧ c.toNat ≤ 90
  · rw [if_pos h,
      not_ws_of_ge _ (by rw [toNat_ofNat_of_lt (by omega)]; omega),
      not_ws_of_ge c (by omega)]
  · rw [if_neg h]

theorem dropWhile_eq_self_of_head? (p : Char → Bool) (l : List Char)
    (h : ∀ x, l.head? = some x → p x = false) : l.dropWhile p = l := by
  cases l with
  | nil => rfl
  | cons a t => exact List.dropWhile_cons_of_neg (by simp [h a rfl])

theorem head?_dropWhile_false (p : Char → Bool) (m : List Char) :
    ∀ x, (m.dropWhile p).head? = some x → p x = false := by
  intro x hx
  have h := List.head?_dropWhile_not p m
  rw [hx] at h
  exact h

theorem jsTrim_idem (l : List Char) : jsTrim (jsTrim l) = jsTrim l := by
  simp only [jsTrim]
  obtain ⟨w, hw⟩ :=
    List.dropWhile_suffix (l := (l.dropWhile Char.isWhitespace).reverse)
      Char.isWhitespace
  have hvr : ∀ x,
      ((l.dropWhile Char.isWhitespace).reverse.dropWhile
        Char.isWhitespace).reverse.head? = some x →
        Char.isWhitespace x = false := by
    intro x hx
    have hu_eq : l.dropWhile Char.isWhitespace =
        ((l.dropWhile Char.isWhitespace).reverse.dropWhile
          Char.isWhitespace).reverse ++ w.reverse := by
      have h1 := congrArg List.reverse hw
      simpa [List.reverse_append] using h1.symm
    cases hv : ((l.dropWhile Char.isWhitespace).reverse.dropWhile
        Char.isWhitespace).reverse with
    | nil => rw [hv] at hx; exact absurd hx (by simp)
    | cons a t =>
        rw [hv] at hx
        simp only [List.head?_cons, Option.some.injEq] at hx
        subst hx
        apply head?_dropWhile_false Char.isWhitespace l
        rw [hu_eq, hv]
        simp
  rw [dropWhile_eq_self_of_head? _ _ hvr, List.reverse_reverse,
    dropWhile_eq_self_of_head? _ _
      (head?_dropWhile_false Char.isWhitespace
        (l.dropWhile Char.isWhitespace).reverse)]

theorem jsToLower_idem (l : List Char) : jsToLower (jsToLower l) = jsToLower l := by
  simp only [jsToLower, List.map_map]
  exact List.map_congr_left fun a _ => toLower_toLower a

theorem jsToLower_jsTrim (l : List Char) :
    jsToLower (jsTrim l) = jsTrim (jsToLower l) := by
  have hpf : (Char.isWhitespace ∘ Char.toLower) = Char.isWhitespace :=
    funext fun c => isWhitespace_toLower c
  simp only [jsToLower, jsTrim, List.dropWhile_map, hpf, ← List.map_reverse]

theorem normEmail_normEmail (s : String) :
    normEmail (normEmail s) = normEmail s := by
  simp only [normEmail]
  rw [jsToLower_jsTrim (jsToLower s.data), jsToLower_idem, jsTrim_idem]

theorem normEmail_normAdmin (s : String) :
    normEmail (normAdmin s) = normAdmin s := by
  simp only [normEmail, normAdmin]
  rw [jsToLower_idem, jsToLower_jsTrim s.data, jsTrim_idem]

theorem normEmail_of_mem_admins {env e : String}
    (he : e ∈ parseAdminEmails env) : normEmail e = e := by
  simp only [parseAdminEmails, List.mem_filter, List.mem_map] at he
  obtain ⟨⟨l, _, rfl⟩, _⟩ := he
  exact normEmail_normAdmin (String.mk l)

theorem ne_empty_of_mem_admins {env e : String}
    (he : e ∈ parseAdminEmails env) : e ≠ "" := by
  simp only [parseAdminEmails, List.mem_filter] at he
  exact of_decide_eq_true he.2

/-! ### Claims about the auth routes -/

/-- C3: a refresh request carrying a valid session credential with
subject `userId` and a new Google token whose resolved identity differs
from `userId` fails with 403 (`'Token belongs to a different account'`),
whatever the roster state, stored tokens or role; the state is
untouched. -/
theorem refreshGoogle_identity_mismatch (now : Int) (st : AuthState)
    (userId userRole t : String) (profile : GoogleProfile) (ht : t ≠ "")
    (hne : normEmail (jsOrStr profile.email "") ≠ userId) :
    refreshGoogle now st userId userRole (some t) (.ok profile) = ⟨403, st⟩ := by
  simp only [refreshGoogle]
  rw [if_neg ht, if_neg hne]

theorem refreshGoogle_identity_mismatch_witness :
    refreshGoogle 0 ⟨[], none, ⟨none, 0⟩⟩ "alice@x.com" "user" (some "tok")
        (.ok ⟨some "Bob@Y.com", none, none, none⟩) =
      ⟨403, ⟨[], none, ⟨none, 0⟩⟩⟩ :=
  refreshGoogle_identity_mismatch 0 ⟨[], none, ⟨none, 0⟩⟩ "alice@x.com"
    "user" "tok" ⟨some "Bob@Y.com", none, none, none⟩ (by decide) (by decide)

/-- C8: a verify request whose `googleAccessToken` is missing (or
another falsy non-string), a non-string value, or the empty string is
rejected with 400 before the Google identity endpoint is called
(`calledGoogle = false`), no credential is issued, and the state is
untouched. -/
theorem verify_invalid_request (env : String)
    (sheetRead : Except Unit (List RosterUser)) (now : Int) (st : AuthState)
    (body : BodyVal) (gRes : GRes) (hb : ∀ t, body = .str t → t = "") :
    verify env sheetRead now st body gRes = ⟨400, none, false, st⟩ := by
  cases body with
  | missing => rfl
  | nonStringVal => rfl
  | str t =>
      have ht : t = "" := hb t rfl
      subst ht
      simp [verify]

theorem verify_invalid_request_witness :
    verify "" (.ok []) 0 ⟨[], none, ⟨none, 0⟩⟩ .missing .notOk =
      ⟨400, none, false, ⟨[], none, ⟨none, 0⟩⟩⟩ :=
  verify_invalid_request "" (.ok []) 0 ⟨[], none, ⟨none, 0⟩⟩ .missing .notOk
    (fun _ h => nomatch h)

/-- C7: for an identity on the bootstrap admin list, a verify request
with a valid Google token resolving to that identity always issues a
credential with `role = "admin"` and subject (`userId`) equal to the
normalized email — for every roster cache, sheet outcome and token
store, and whether or not any admin token is available. -/
theorem verify_bootstrap_admin (env : String)
    (sheetRead : Except Unit (List RosterUser)) (now : Int) (st : AuthState)
    (t : String) (profile : GoogleProfile) (ht : t ≠ "")
    (he : normEmail (jsOrStr profile.email "") ∈ parseAdminEmails env) :
    (verify env sheetRead now st (.str t) (.ok profile)).status = 200 ∧
      (verify env sheetRead now st (.str t) (.ok profile)).credential =
        some ⟨normEmail (jsOrStr profile.email ""),
          jsOrStr profile.name
            (jsOrStr profile.given_name (normEmail (jsOrStr profile.email ""))),
          normEmail (jsOrStr profile.email ""), jsOrNull profile.picture,
          "admin"⟩ := by
  have hne := ne_empty_of_mem_admins he
  have hidem := normEmail_of_mem_admins he
  have hc : (parseAdminEmails env).contains
      (normEmail (jsOrStr profile.email "")) = true :=
    List.elem_eq_true_of_mem he
  simp only [verify, lookupUser]
  rw [if_neg ht, if_neg hne, if_pos hc, normEmail_normEmail, if_pos hc]
  exact ⟨rfl, rfl⟩

theorem verify_bootstrap_admin_witness :
    (verify "boss@x.com" (.ok []) 0 ⟨[], none, ⟨none, 0⟩⟩ (.str "tok")
        (.ok ⟨some "Boss@X.com", none, none, none⟩)).status = 200 ∧
      (verify "boss@x.com" (.ok []) 0 ⟨[], none, ⟨none, 0⟩⟩ (.str "tok")
          (.ok ⟨some "Boss@X.com", none, none, none⟩)).credential =
        some ⟨normEmail (jsOrStr (some "Boss@X.com") ""),
          jsOrStr none
            (jsOrStr none (normEmail (jsOrStr (some "Boss@X.com") ""))),
          normEmail (jsOrStr (some "Boss@X.com") ""), jsOrNull none,
          "admin"⟩ :=
  verify_bootstrap_admin "boss@x.com" (.ok []) 0 ⟨[], none, ⟨none, 0⟩⟩ "tok"
    ⟨some "Boss@X.com", none, none, none⟩ (by decide) (by decide)

/-- Helper for C4: under the hypotheses that the normalized identity is
neither a bootstrap admin, nor in the cached roster, nor in any roster
rows a successful sheet read returns, `lookupUser` either resolves to
no user or throws. -/
theorem lookupUser_not_found (env : String)
    (sheetRead : Except Unit (List RosterUser)) (now : Int) (st : AuthState)
    (email : String)
    (hnadmin : (parseAdminEmails env).contains (normEmail email) = false)
    (hcache : ∀ rows, st.roster.cache = some rows →
      rosterFind rows (normEmail email) = none)
    (hsheet : ∀ rows, sheetRead = .ok rows →
      rosterFind rows (normEmail email) = none) :
    (lookupUser env sheetRead now st email).1 = .ok none ∨
      (lookupUser env sheetRead now st email).1 = .error () := by
  have hcnot : ¬((parseAdminEmails env).contains (normEmail email) = true) := by
    intro hcon
    rw [hnadmin] at hcon
    exact Bool.false_ne_true hcon
  rcases st with ⟨mem, adminEmail, roster⟩
  simp only [lookupUser]
  rw [if_neg hcnot]
  cases adminEmail with
  | none => exact Or.inl rfl
  | some a =>
      rcases hg : tokenStoreGet mem now a with ⟨tok, mem₂⟩
      simp only [hg]
      cases tok with
      | none => exact Or.inl rfl
      | some tk =>
          simp only
          cases hcc : roster.cache with
          | none =>
              simp only [hcc, Option.isNone_none, Bool.true_or, if_true]
              cases sheetRead with
              | error u => exact Or.inr rfl
              | ok rows =>
                  simp only [hsheet rows rfl]
                  exact Or.inl trivial
          | some rows =>
              by_cases hstale : now - roster.cacheTime > USERS_TTL_MS
              · simp only [hcc, Option.isNone_some, Bool.false_or,
                  decide_eq_true hstale, if_true]
                cases sheetRead with
                | error u => exact Or.inr rfl
                | ok rows' =>
                    simp only [hsheet rows' rfl]
                    exact Or.inl trivial
              · simp only [hcc, Option.isNone_some, Bool.false_or,
                  decide_eq_false hstale, Bool.false_eq_true, if_false,
                  Option.getD_some, hcache rows hcc]
                exact Or.inl trivial

/-- C4: a verify request whose Google token validates and resolves to a
(nonempty) normalized identity that is absent from the bootstrap admin
list, from the cached roster, and from whatever rows the sheet would
return, fails with 403 and no credential is issued. -/
theorem verify_untrusted (env : String)
    (sheetRead : Except Unit (List RosterUser)) (now : Int) (st : AuthState)
    (t : String) (profile : GoogleProfile) (ht : t ≠ "")
    (hne : normEmail (jsOrStr profile.email "") ≠ "")
    (hnadmin : (parseAdminEmails env).contains
      (normEmail (jsOrStr profile.email "")) = false)
    (hcache : ∀ rows, st.roster.cache = some rows →
      rosterFind rows (normEmail (jsOrStr profile.email "")) = none)
    (hsheet : ∀ rows, sheetRead = .ok rows →
      rosterFind rows (normEmail (jsOrStr profile.email "")) = none) :
    (verify env sheetRead now st (.str t) (.ok profile)).status = 403 ∧
      (verify env sheetRead now st (.str t) (.ok profile)).credential =
        none := by
  have hcnot : ¬((parseAdminEmails env).contains
      (normEmail (jsOrStr profile.email "")) = true) := by
    intro hcon
    rw [hnadmin] at hcon
    exact Bool.false_ne_true hcon
  have hlookup := lookupUser_not_found env sheetRead now
    { st with mem := tokenStoreSet st.mem now (normEmail (jsOrStr profile.email "")) t }
    (normEmail (jsOrStr profile.email ""))
    (by rw [normEmail_normEmail]; exact hnadmin)
    (by intro rows h; rw [normEmail_normEmail]; exact hcache rows h)
    (by intro rows h; rw [normEmail_normEmail]; exact hsheet rows h)
  simp only [verify]
  rw [if_neg ht, if_neg hne, if_neg hcnot]
  rcases hlookup with h | h
  · rw [h]
    exact ⟨rfl, rfl⟩
  · rw [h]
    simp only [if_neg hcnot]
    constructor <;> trivial

theorem verify_untrusted_witness :
    (verify "boss@x.com" (.ok []) 0 ⟨[], none, ⟨none, 0⟩⟩
        (.str "tok") (.ok ⟨some "randomuser@z.com", none, none, none⟩)).status =
        403 ∧
      (verify "boss@x.com" (.ok []) 0 ⟨[], none, ⟨none, 0⟩⟩
          (.str "tok")
          (.ok ⟨some "randomuser@z.com", none, none, none⟩)).credential =
        none :=
  verify_untrusted "boss@x.com" (.ok []) 0 ⟨[], none, ⟨none, 0⟩⟩ "tok"
    ⟨some "randomuser@z.com", none, none, none⟩ (by decide) (by decide)
    (by decide) (fun rows h => nomatch h) (fun rows h => by cases h; rfl)

end Elbob
